import Mathlib

/-!
Verification of the AST-node core of the comrak CommonMark library
(`src/node.rs`): the `NodeValue` taxonomy, the structural classifiers
(`block`, `accepts_lines`, `contains_inlines`, `can_contain_type`), the
tree predicates (`last_child_is_open`, `ends_with_blank_line`,
`containing_block`), the node constructor `make_block`, and the debug
renderer. Rust machine integers (`u32`, `u8`, `usize`) are modelled as
`Nat`; none of the verified operations performs arithmetic on them, so
overflow is not observable. `Vec<char>` buffers are modelled as
`List Char`.
-/

namespace Comrak

/-- Payload of `List` and `Item`: `enum ListType { None, Bullet, Ordered }`. -/
inductive ListType : Type where
  | None : ListType
  | Bullet : ListType
  | Ordered : ListType
deriving DecidableEq, Repr

/-- `impl Default for ListType` returns `ListType::None`. -/
def ListType.default : ListType := ListType.None

/-- `enum ListDelimType { None, Period, Paren }`. -/
inductive ListDelimType : Type where
  | None : ListDelimType
  | Period : ListDelimType
  | Paren : ListDelimType
deriving DecidableEq, Repr

/-- `impl Default for ListDelimType` returns `ListDelimType::None`. -/
def ListDelimType.default : ListDelimType := ListDelimType.None

/-- `struct NodeList`: shared list metadata of `List` and `Item` nodes. -/
structure NodeList : Type where
  list_type : ListType
  marker_offset : Nat
  padding : Nat
  start : Nat
  delimiter : ListDelimType
  bullet_char : Char
  tight : Bool
deriving DecidableEq, Repr

/-- `#[derive(Default)]` on `NodeList`: every field takes its type's
default — `ListType::None`, `0`, `0`, `0`, `ListDelimType::None`,
`'\0'` (Rust `char::default()`), `false`. -/
def NodeList.default : NodeList :=
  { list_type := ListType.default
    marker_offset := 0
    padding := 0
    start := 0
    delimiter := ListDelimType.default
    bullet_char := Char.ofNat 0
    tight := false }

/-- Rust `Vec<char>` character buffers, modelled as `List Char`.
(A plain abbreviation; needed because `List` is shadowed by the
`NodeValue.List` constructor inside the `NodeValue` namespace.) -/
abbrev CharBuf : Type := List Char

/-- `struct NodeCodeBlock`. -/
structure NodeCodeBlock : Type where
  fenced : Bool
  fence_char : Char
  fence_length : Nat
  fence_offset : Nat
  info : List Char
  literal : List Char
deriving DecidableEq, Repr

/-- `struct NodeHeading`. -/
structure NodeHeading : Type where
  level : Nat
  setext : Bool
deriving DecidableEq, Repr

/-- `struct NodeHtmlBlock`. -/
structure NodeHtmlBlock : Type where
  block_type : Nat
  literal : List Char
deriving DecidableEq, Repr

/-- `struct NodeLink`. -/
structure NodeLink : Type where
  url : List Char
  title : List Char
deriving DecidableEq, Repr

/-- `enum NodeValue`: the closed taxonomy of node kinds, block kinds
first, then inline kinds, in source order. -/
inductive NodeValue : Type where
  | Document : NodeValue
  | BlockQuote : NodeValue
  | List : NodeList → NodeValue
  | Item : NodeList → NodeValue
  | CodeBlock : NodeCodeBlock → NodeValue
  | HtmlBlock : NodeHtmlBlock → NodeValue
  | CustomBlock : NodeValue
  | Paragraph : NodeValue
  | Heading : NodeHeading → NodeValue
  | ThematicBreak : NodeValue
  | Text : List Char → NodeValue
  | SoftBreak : NodeValue
  | LineBreak : NodeValue
  | Code : List Char → NodeValue
  | HtmlInline : List Char → NodeValue
  | CustomInline : NodeValue
  | Emph : NodeValue
  | Strong : NodeValue
  | Strikethrough : NodeValue
  | Link : NodeLink → NodeValue
  | Image : NodeLink → NodeValue
deriving DecidableEq, Repr

/-- `NodeValue::block`: matches the ten block constructors to `true`,
everything else (the catch-all `_` arm) to `false`. -/
def NodeValue.block : NodeValue → Bool
  | NodeValue.Document => true
  | NodeValue.BlockQuote => true
  | NodeValue.List _ => true
  | NodeValue.Item _ => true
  | NodeValue.CodeBlock _ => true
  | NodeValue.HtmlBlock _ => true
  | NodeValue.CustomBlock => true
  | NodeValue.Paragraph => true
  | NodeValue.Heading _ => true
  | NodeValue.ThematicBreak => true
  | _ => false

/-- `NodeValue::accepts_lines`: `Paragraph`, `Heading`, `CodeBlock`
map to `true`, the catch-all to `false`. -/
def NodeValue.accepts_lines : NodeValue → Bool
  | NodeValue.Paragraph => true
  | NodeValue.Heading _ => true
  | NodeValue.CodeBlock _ => true
  | _ => false

/-- `NodeValue::contains_inlines`: `Paragraph` and `Heading` map to
`true`, the catch-all to `false`. -/
def NodeValue.contains_inlines : NodeValue → Bool
  | NodeValue.Paragraph => true
  | NodeValue.Heading _ => true
  | _ => false

/-- `NodeValue::text`: `Some` of the character buffer on the `Text`
variant, `None` on everything else. The Rust signature returns
`Option<&mut Vec<char>>`; the shallow embedding returns the buffer
value itself. -/
def NodeValue.text : NodeValue → Option CharBuf
  | NodeValue.Text t => some t
  | _ => none

/-- `struct Ast`: the mutable per-node state (`Node.data` holds a
`RefCell<Ast>`; interior mutability is irrelevant to the pure
predicates modelled here). The Rust field `open` is a Lean keyword and
is written `«open»`. -/
structure Ast : Type where
  value : NodeValue
  content : CharBuf
  start_line : Nat
  start_column : Nat
  end_line : Nat
  end_column : Nat
  «open» : Bool
  last_line_blank : Bool
deriving Repr

/-- `fn make_block(value, start_line, start_column) -> Ast`. -/
def make_block (value : NodeValue) (start_line : Nat) (start_column : Nat) : Ast :=
  { value := value
    content := []
    start_line := start_line
    start_column := start_column
    end_line := start_line
    end_column := 0
    «open» := true
    last_line_blank := false }

/-- `Node::can_contain_type(&self, child)`: the Rust method reads only
`self.data.borrow().value`, so it is embedded as a function of the
parent's `NodeValue` and the child's `NodeValue`. The early
`if let Document = child { return false }` becomes the outer match. -/
def can_contain_type (parent : NodeValue) (child : NodeValue) : Bool :=
  match child with
  | NodeValue.Document => false
  | _ =>
    match parent with
    | NodeValue.Document | NodeValue.BlockQuote | NodeValue.Item _ =>
      child.block &&
        (match child with
         | NodeValue.Item _ => false
         | _ => true)
    | NodeValue.List _ =>
      (match child with
       | NodeValue.Item _ => true
       | _ => false)
    | NodeValue.CustomBlock => true
    | NodeValue.Paragraph | NodeValue.Heading _ | NodeValue.Emph
    | NodeValue.Strong | NodeValue.Link _ | NodeValue.Image _
    | NodeValue.CustomInline => !child.block
    | _ => false

/-- The kind (constructor tag) of a `NodeValue`, forgetting payloads.
Used to state kind-level properties of the classifiers. -/
inductive Kind : Type where
  | Document | BlockQuote | List | Item | CodeBlock | HtmlBlock
  | CustomBlock | Paragraph | Heading | ThematicBreak
  | Text | SoftBreak | LineBreak | Code | HtmlInline | CustomInline
  | Emph | Strong | Strikethrough | Link | Image
deriving DecidableEq, Repr, Fintype

/-- Map a `NodeValue` to its kind. -/
def kindOf : NodeValue → Kind
  | NodeValue.Document => Kind.Document
  | NodeValue.BlockQuote => Kind.BlockQuote
  | NodeValue.List _ => Kind.List
  | NodeValue.Item _ => Kind.Item
  | NodeValue.CodeBlock _ => Kind.CodeBlock
  | NodeValue.HtmlBlock _ => Kind.HtmlBlock
  | NodeValue.CustomBlock => Kind.CustomBlock
  | NodeValue.Paragraph => Kind.Paragraph
  | NodeValue.Heading _ => Kind.Heading
  | NodeValue.ThematicBreak => Kind.ThematicBreak
  | NodeValue.Text _ => Kind.Text
  | NodeValue.SoftBreak => Kind.SoftBreak
  | NodeValue.LineBreak => Kind.LineBreak
  | NodeValue.Code _ => Kind.Code
  | NodeValue.HtmlInline _ => Kind.HtmlInline
  | NodeValue.CustomInline => Kind.CustomInline
  | NodeValue.Emph => Kind.Emph
  | NodeValue.Strong => Kind.Strong
  | NodeValue.Strikethrough => Kind.Strikethrough
  | NodeValue.Link _ => Kind.Link
  | NodeValue.Image _ => Kind.Image

/-- The ten block kinds, in the order the spec lists them. -/
def blockKinds : List Kind :=
  [Kind.Document, Kind.BlockQuote, Kind.List, Kind.Item, Kind.CodeBlock,
   Kind.HtmlBlock, Kind.CustomBlock, Kind.Paragraph, Kind.Heading,
   Kind.ThematicBreak]

/-- The eleven inline kinds, in the order the spec lists the variants. -/
def inlineKinds : List Kind :=
  [Kind.Text, Kind.SoftBreak, Kind.LineBreak, Kind.Code, Kind.HtmlInline,
   Kind.CustomInline, Kind.Emph, Kind.Strong, Kind.Strikethrough,
   Kind.Link, Kind.Image]

/-- Whether a kind is one of the ten block kinds. -/
def isBlockKind (k : Kind) : Bool := decide (k ∈ blockKinds)

/-- Reference containment table, stated on kinds following the spec's
§4.2 wording (a spec-side definition, to be compared with the source's
`can_contain_type`): a `Document` child is never legal; `Document`,
`BlockQuote`, `Item` accept any block kind except `Item`; `List`
accepts only `Item`; `CustomBlock` accepts anything (other than
`Document`, excluded first); `Paragraph`, `Heading`, `Emph`, `Strong`,
`Link`, `Image`, `CustomInline` accept only non-block kinds; all other
parents accept nothing. -/
def can_contain_reference (parent : Kind) (child : Kind) : Bool :=
  if child = Kind.Document then false
  else if parent = Kind.Document ∨ parent = Kind.BlockQuote ∨ parent = Kind.Item then
    isBlockKind child && !(child = Kind.Item)
  else if parent = Kind.List then child = Kind.Item
  else if parent = Kind.CustomBlock then true
  else if parent = Kind.Paragraph ∨ parent = Kind.Heading ∨ parent = Kind.Emph
       ∨ parent = Kind.Strong ∨ parent = Kind.Link ∨ parent = Kind.Image
       ∨ parent = Kind.CustomInline then
    !isBlockKind child
  else false

/-- A node of the arena tree, specialised to the `Ast` payload: the
node's `data` cell plus its ordered children. Parent and sibling links
of `arena_tree::Node` are represented implicitly: children are the
ordered child list, `last_child()` is `children.getLast?`, and walks
up the parent chain are modelled as walks along an explicit ancestor
list (see `containing_block`). -/
inductive NTree : Type where
  | node : Ast → List NTree → NTree

/-- The node's payload (`node.data.borrow()`). -/
def NTree.data : NTree → Ast
  | NTree.node a _ => a

/-- The node's ordered children. -/
def NTree.children : NTree → List NTree
  | NTree.node _ cs => cs

/-- `node.last_child()`: the last element of the child list, if any. -/
def NTree.last_child (t : NTree) : Option NTree := t.children.getLast?

theorem sizeOf_lt_of_last_child {t c : NTree} (h : t.last_child = some c) :
    sizeOf c < sizeOf t := by
  cases t with
  | node a cs =>
    simp only [NTree.last_child, NTree.children] at h
    have hm : c ∈ cs := List.mem_of_getLast?_eq_some h
    have hlt := List.sizeOf_lt_of_mem hm
    simp only [NTree.node.sizeOf_spec]
    omega

/-- `Node::last_child_is_open`:
`self.last_child().map_or(false, |n| n.data.borrow().open)`. -/
def NTree.last_child_is_open (t : NTree) : Bool :=
  match t.last_child with
  | some n => n.data.«open»
  | none => false

/-- `Node::ends_with_blank_line`: the Rust `while let` loop, written as
recursion on the current node. The loop returns `true` as soon as the
current node's `last_line_blank` is set, moves to the last child only
when the current value is `List` or `Item`, and otherwise exits with
`false`. -/
def NTree.ends_with_blank_line (t : NTree) : Bool :=
  if t.data.last_line_blank then true
  else
    match t.data.value with
    | NodeValue.List _ | NodeValue.Item _ =>
      match h : t.last_child with
      | some c => c.ends_with_blank_line
      | none => false
    | _ => false
termination_by sizeOf t
decreasing_by all_goals exact sizeOf_lt_of_last_child h

/-- Spec-side description of the descent of `ends_with_blank_line`
(defined for the comparison in claim C3, from the claim's words): the
chain of nodes starting at `t` that repeatedly moves to the last child
but continues only from nodes whose kind is `List` or `Item`. -/
def NTree.blank_line_chain (t : NTree) : List NTree :=
  t ::
    (match t.data.value with
     | NodeValue.List _ | NodeValue.Item _ =>
       match h : t.last_child with
       | some c => c.blank_line_chain
       | none => []
     | _ => [])
termination_by sizeOf t
decreasing_by all_goals exact sizeOf_lt_of_last_child h

/-- `Node::containing_block`: the Rust loop walks `ch = Some(self)`,
then `ch = node.parent()`, returning the first node whose value is
block. The node together with its parent chain is modelled as the
explicit list of payloads `node :: parents` (nearest first, root
last); the loop is recursion on that list. -/
def containing_block : List Ast → Option Ast
  | [] => none
  | a :: rest => if a.value.block then some a else containing_block rest

mutual
/-- The `Debug` impl for `Node`: prints the payload (via the payload's
own formatter, a parameter here, as the Rust impl is generic in
`T: Debug`), the child count, and the children's renderings separated
by `", "` inside braces. -/
def debug_render (fmtData : Ast → String) : NTree → String
  | NTree.node a cs =>
    "[(" ++ fmtData a ++ ") " ++ toString cs.length ++ " children: \x7b" ++
      debug_render_children fmtData true cs ++ "\x7d]"

/-- The child-printing loop of the `Debug` impl, carrying the `first`
flag that suppresses the separator before the first child. -/
def debug_render_children (fmtData : Ast → String) : Bool → List NTree → String
  | _, [] => ""
  | first, c :: cs =>
    (if first then "" else ", ") ++ debug_render fmtData c ++
      debug_render_children fmtData false cs
end

/-- Fuel-bounded variant of `ends_with_blank_line`: `none` when the
step budget runs out, `some` of the answer otherwise. Used to state
termination (claim C8). -/
def ends_with_blank_line_steps : Nat → NTree → Option Bool
  | 0, _ => none
  | fuel + 1, t =>
    if t.data.last_line_blank then some true
    else
      match t.data.value with
      | NodeValue.List _ | NodeValue.Item _ =>
        match t.last_child with
        | some c => ends_with_blank_line_steps fuel c
        | none => some false
      | _ => some false

/-- Fuel-bounded variant of `containing_block`. -/
def containing_block_steps : Nat → List Ast → Option (Option Ast)
  | 0, _ => none
  | _ + 1, [] => some none
  | fuel + 1, a :: rest =>
    if a.value.block then some (some a) else containing_block_steps fuel rest

mutual
/-- Fuel-bounded variant of `debug_render`. -/
def debug_render_steps : Nat → (Ast → String) → NTree → Option String
  | 0, _, _ => none
  | fuel + 1, fmtData, NTree.node a cs =>
    (debug_render_children_steps fuel fmtData true cs).map fun s =>
      "[(" ++ fmtData a ++ ") " ++ toString cs.length ++ " children: \x7b" ++
        s ++ "\x7d]"

/-- Fuel-bounded variant of `debug_render_children`. -/
def debug_render_children_steps :
    Nat → (Ast → String) → Bool → List NTree → Option String
  | 0, _, _, _ => none
  | _ + 1, _, _, [] => some ""
  | fuel + 1, fmtData, first, c :: cs => do
    let s ← debug_render_steps fuel fmtData c
    let rest ← debug_render_children_steps fuel fmtData false cs
    some ((if first then "" else ", ") ++ s ++ rest)
end

/-- C1: `can_contain_type` agrees with the reference containment table
`can_contain_reference` on every (parent kind, child kind) pair; in
particular the result depends only on the variants' kinds, and
unmatched combinations yield `false`, not an error (the function is
total). -/
theorem can_contain_type_matches_reference (parent child : NodeValue) :
    can_contain_type parent child = can_contain_reference (kindOf parent) (kindOf child) := by
  cases parent <;> cases child <;> rfl

/-- C2: `block` is true exactly on the ten block kinds and false
exactly on the eleven inline kinds; the two kind lists partition the
full variant set. -/
theorem block_partition :
    (∀ v : NodeValue, v.block = true ↔ kindOf v ∈ blockKinds) ∧
    (∀ v : NodeValue, v.block = false ↔ kindOf v ∈ inlineKinds) ∧
    blockKinds.length = 10 ∧ inlineKinds.length = 11 ∧
    (∀ k : Kind, (k ∈ blockKinds ∧ k ∉ inlineKinds) ∨ (k ∉ blockKinds ∧ k ∈ inlineKinds)) := by
  refine ⟨?_, ?_, rfl, rfl, by decide⟩
  · intro v
    cases v <;> simp [NodeValue.block, kindOf, blockKinds]
  · intro v
    cases v <;> simp [NodeValue.block, kindOf, inlineKinds]

/-- C5: `accepts_lines` is true exactly on `Paragraph`, `Heading`,
`CodeBlock`; `contains_inlines` is true exactly on `Paragraph`,
`Heading`; both are false on every other variant. -/
theorem accepts_lines_contains_inlines_spec :
    (∀ v : NodeValue,
      v.accepts_lines = true ↔ kindOf v ∈ [Kind.Paragraph, Kind.Heading, Kind.CodeBlock]) ∧
    (∀ v : NodeValue,
      v.contains_inlines = true ↔ kindOf v ∈ [Kind.Paragraph, Kind.Heading]) := by
  constructor <;> intro v <;>
    cases v <;> simp [NodeValue.accepts_lines, NodeValue.contains_inlines, kindOf]

/-- C6: `make_block v l c` yields a node state with value `v`, empty
content, `start_line = end_line = l`, `start_column = c`,
`end_column = 0`, `open = true`, `last_line_blank = false`. -/
theorem make_block_spec (value : NodeValue) (start_line start_column : Nat) :
    (make_block value start_line start_column).value = value ∧
    (make_block value start_line start_column).content = [] ∧
    (make_block value start_line start_column).start_line = start_line ∧
    (make_block value start_line start_column).end_line = start_line ∧
    (make_block value start_line start_column).start_column = start_column ∧
    (make_block value start_line start_column).end_column = 0 ∧
    (make_block value start_line start_column).«open» = true ∧
    (make_block value start_line start_column).last_line_blank = false :=
  ⟨rfl, rfl, rfl, rfl, rfl, rfl, rfl, rfl⟩

/-- C7: the text accessor returns `some` of the buffer exactly on
`Text` and `none` on every other variant; it is a total function, so
it never panics. -/
theorem text_accessor_spec :
    (∀ t : CharBuf, (NodeValue.Text t).text = some t) ∧
    (∀ v : NodeValue, (∀ t, v ≠ NodeValue.Text t) → v.text = none) := by
  constructor
  · intro t; rfl
  · intro v hv
    cases v <;> first
      | rfl
      | exact absurd rfl (hv _)

/-- C7 witness: the accessor at concrete inputs. -/
theorem text_accessor_spec_witness :
    NodeValue.Paragraph.text = none :=
  text_accessor_spec.2 NodeValue.Paragraph (by intro t h; exact NodeValue.noConfusion h)

/-- C9: `last_child_is_open` is true iff the node has a last child
whose `open` flag is set; in particular it is false on every childless
node. -/
theorem last_child_is_open_spec :
    (∀ t : NTree,
      t.last_child_is_open = true ↔ ∃ c, t.last_child = some c ∧ c.data.«open» = true) ∧
    (∀ a : Ast, (NTree.node a []).last_child_is_open = false) := by
  constructor
  · intro t
    simp only [NTree.last_child_is_open]
    cases h : t.last_child with
    | none => simp [h]
    | some c => simp [h]
  · intro a
    rfl

/-- C4: `containing_block` returns the first element of the
node-plus-ancestors chain whose value is block: it equals `List.find?`
on the block predicate, returns the node itself when the node is
block, only ever returns block nodes, and returns `none` exactly when
nothing on the chain is block. -/
theorem containing_block_spec :
    (∀ l : List Ast, containing_block l = l.find? fun a => a.value.block) ∧
    (∀ (a : Ast) (rest : List Ast),
      a.value.block = true → containing_block (a :: rest) = some a) ∧
    (∀ (l : List Ast) (a : Ast), containing_block l = some a → a.value.block = true) ∧
    (∀ l : List Ast, containing_block l = none ↔ ∀ a ∈ l, a.value.block = false) := by
  have hfind : ∀ l : List Ast, containing_block l = l.find? fun a => a.value.block := by
    intro l
    induction l with
    | nil => rfl
    | cons a rest ih =>
      simp only [containing_block, List.find?]
      cases h : a.value.block with
      | true => simp
      | false => simpa using ih
  refine ⟨hfind, ?_, ?_, ?_⟩
  · intro a rest h
    simp [containing_block, h]
  · intro l a h
    rw [hfind] at h
    have h2 := List.find?_some h
    simpa using h2
  · intro l
    rw [hfind]
    simp [List.find?_eq_none]

/-- C4 witness: on a concrete singleton chain whose node is a block
node, `containing_block` returns that node. -/
theorem containing_block_spec_witness :
    containing_block [make_block NodeValue.Paragraph 1 0] =
      some (make_block NodeValue.Paragraph 1 0) :=
  containing_block_spec.2.1 (make_block NodeValue.Paragraph 1 0) [] rfl

/-- C3: `ends_with_blank_line t` is true iff some node on the descent
chain — starting at `t`, repeatedly moving to the last child, and
continuing only from `List`/`Item` nodes — has its `last_line_blank`
flag set. -/
theorem ends_with_blank_line_iff_chain (t : NTree) :
    t.ends_with_blank_line =
      t.blank_line_chain.any (fun n => n.data.last_line_blank) := by
  suffices H : ∀ (n : Nat) (t : NTree), sizeOf t ≤ n →
      t.ends_with_blank_line =
        t.blank_line_chain.any (fun n => n.data.last_line_blank) from
    H (sizeOf t) t le_rfl
  intro n
  induction n with
  | zero =>
    intro t h
    cases t with
    | node a cs =>
      simp only [NTree.node.sizeOf_spec] at h
      omega
  | succ n IH =>
    intro t h
    rw [NTree.ends_with_blank_line, NTree.blank_line_chain, List.any_cons]
    cases hb : t.data.last_line_blank with
    | true => simp
    | false =>
      simp only [Bool.false_or, if_false, Bool.false_eq_true]
      cases hv : t.data.value <;> simp only []
      case List nl =>
        cases hl : t.last_child with
        | some c =>
          have hc : sizeOf c ≤ n := by
            have := sizeOf_lt_of_last_child hl
            omega
          simpa using IH c hc
        | none => simp
      case Item nl =>
        cases hl : t.last_child with
        | some c =>
          have hc : sizeOf c ≤ n := by
            have := sizeOf_lt_of_last_child hl
            omega
          simpa using IH c hc
        | none => simp
      all_goals simp

theorem ends_with_blank_line_steps_sufficient :
    ∀ (fuel : Nat) (t : NTree), sizeOf t ≤ fuel →
      ends_with_blank_line_steps fuel t = some t.ends_with_blank_line := by
  intro fuel
  induction fuel with
  | zero =>
    intro t h
    cases t with
    | node a cs =>
      simp only [NTree.node.sizeOf_spec] at h
      omega
  | succ fuel IH =>
    intro t h
    rw [ends_with_blank_line_steps, NTree.ends_with_blank_line]
    cases hb : t.data.last_line_blank with
    | true => simp
    | false =>
      simp only [Bool.false_eq_true, if_false]
      cases hv : t.data.value <;> try rfl
      case List nl =>
        cases hl : t.last_child with
        | some c =>
          have hc : sizeOf c ≤ fuel := by
            have := sizeOf_lt_of_last_child hl
            omega
          simpa using IH c hc
        | none => simp
      case Item nl =>
        cases hl : t.last_child with
        | some c =>
          have hc : sizeOf c ≤ fuel := by
            have := sizeOf_lt_of_last_child hl
            omega
          simpa using IH c hc
        | none => simp

theorem containing_block_steps_sufficient :
    ∀ (fuel : Nat) (l : List Ast), l.length < fuel →
      containing_block_steps fuel l = some (containing_block l) := by
  intro fuel
  induction fuel with
  | zero =>
    intro l h
    omega
  | succ fuel IH =>
    intro l h
    cases l with
    | nil => rfl
    | cons a rest =>
      rw [containing_block_steps, containing_block]
      cases hb : a.value.block with
      | true => simp
      | false =>
        have hr : rest.length < fuel := by
          simp only [List.length_cons] at h
          omega
        simpa using IH rest hr

theorem debug_render_steps_sufficient :
    ∀ fuel : Nat,
      (∀ (fmtData : Ast → String) (t : NTree), sizeOf t ≤ fuel →
        debug_render_steps fuel fmtData t = some (debug_render fmtData t)) ∧
      (∀ (fmtData : Ast → String) (first : Bool) (cs : List NTree), sizeOf cs ≤ fuel →
        debug_render_children_steps fuel fmtData first cs =
          some (debug_render_children fmtData first cs)) := by
  intro fuel
  induction fuel with
  | zero =>
    constructor
    · intro f t h
      cases t with
      | node a cs =>
        simp only [NTree.node.sizeOf_spec] at h
        omega
    · intro f first cs h
      cases cs with
      | nil =>
        simp only [List.nil.sizeOf_spec] at h
        omega
      | cons c cs =>
        simp only [List.cons.sizeOf_spec] at h
        omega
  | succ fuel IH =>
    constructor
    · intro f t h
      cases t with
      | node a cs =>
        have hcs : sizeOf cs ≤ fuel := by
          simp only [NTree.node.sizeOf_spec] at h
          omega
        rw [debug_render_steps, debug_render, IH.2 f true cs hcs]
        rfl
    · intro f first cs h
      cases cs with
      | nil => rfl
      | cons c cs =>
        have h1 : sizeOf c ≤ fuel := by
          simp only [List.cons.sizeOf_spec] at h
          omega
        have h2 : sizeOf cs ≤ fuel := by
          simp only [List.cons.sizeOf_spec] at h
          omega
        rw [debug_render_children_steps, debug_render_children,
          IH.1 f c h1, IH.2 f false cs h2]
        rfl

/-- C8: the structural queries terminate on every finite tree: with
any step budget at least the size of the input, the fuel-bounded
variants of `ends_with_blank_line`, the debug renderer, and
`containing_block` return `some` of the (total, pure) functions'
answers rather than running out of fuel. -/
theorem structural_queries_terminate (fuel : Nat) (t : NTree)
    (fmtData : Ast → String) (l : List Ast)
    (ht : sizeOf t ≤ fuel) (hl : l.length < fuel) :
    ends_with_blank_line_steps fuel t = some t.ends_with_blank_line ∧
    debug_render_steps fuel fmtData t = some (debug_render fmtData t) ∧
    containing_block_steps fuel l = some (containing_block l) :=
  ⟨ends_with_blank_line_steps_sufficient fuel t ht,
   (debug_render_steps_sufficient fuel).1 fmtData t ht,
   containing_block_steps_sufficient fuel l hl⟩

/-- A concrete two-node tree (a `Document` with one `Paragraph`
child), used to witness the termination theorem at a concrete input. -/
def sampleTree : NTree :=
  NTree.node (make_block NodeValue.Document 1 0)
    [NTree.node (make_block NodeValue.Paragraph 1 0) []]

/-- C8 witness: the termination theorem at a concrete tree, budget,
and ancestor chain. -/
theorem structural_queries_terminate_witness :
    ends_with_blank_line_steps 100 sampleTree = some sampleTree.ends_with_blank_line ∧
    debug_render_steps 100 (fun _ => "") sampleTree =
      some (debug_render (fun _ => "") sampleTree) ∧
    containing_block_steps 100 [] = some (containing_block []) :=
  structural_queries_terminate 100 sampleTree (fun _ => "") []
    (by decide) (by decide)

/-- C10: the derived `Default` for `NodeList` sets `list_type = None`,
`marker_offset = 0`, `padding = 0`, `start = 0` (not 1),
`delimiter = None`, `bullet_char = '\0'` (NUL), `tight = false`. -/
theorem node_list_default_spec :
    NodeList.default.list_type = ListType.None ∧
    NodeList.default.marker_offset = 0 ∧
    NodeList.default.padding = 0 ∧
    NodeList.default.start = 0 ∧
    NodeList.default.delimiter = ListDelimType.None ∧
    NodeList.default.bullet_char = Char.ofNat 0 ∧
    NodeList.default.tight = false :=
  ⟨rfl, rfl, rfl, rfl, rfl, rfl, rfl⟩

end Comrak
